import Mathlib

/-!
Shallow embedding of the basket-builder core: the weight and schema
validators (src/analytics/validation.py), the signal engine
(src/analytics/signals.py) and the SQLite versioning store
(src/storage/db.py).  Machine floats are modelled as exact rationals,
pandas null cells as Option, and dataframes as lists of typed rows.
Each definition carries a note naming the source construct it embeds.
-/

/-- Duplicate test on a list, mirroring pandas Series.duplicated().any()
(pandas treats two nulls as duplicates of each other, as does equality on
Option). -/
def hasDup {α : Type} [DecidableEq α] : List α → Bool
  | [] => false
  | x :: xs => xs.contains x || hasDup xs

/-- Descending order by a key: models both SQL ORDER BY key DESC and
pandas sort_values(key, ascending=False). -/
def keyGE {α β : Type} [LinearOrder β] (key : α → β) (a b : α) : Prop :=
  key b ≤ key a

instance {α β : Type} [LinearOrder β] (key : α → β) : IsTotal α (keyGE key) :=
  ⟨fun a b => le_total (key b) (key a)⟩

instance {α β : Type} [LinearOrder β] (key : α → β) : IsTrans α (keyGE key) :=
  ⟨fun _ _ _ h1 h2 => le_trans h2 h1⟩

instance {α β : Type} [LinearOrder β] (key : α → β) : DecidableRel (keyGE key) :=
  fun a b => inferInstanceAs (Decidable (key b ≤ key a))

/-- WEIGHT_TOLERANCE = 1e-3 from src/config.py. -/
def WEIGHT_TOLERANCE : ℚ := 1 / 1000

/-- REQUIRED_UNIVERSE_COLUMNS from src/config.py. -/
def REQUIRED_UNIVERSE_COLUMNS : List String :=
  ["instrument_id", "ticker", "name", "asset_class", "region", "currency", "eligible"]

/-- One row of a holdings frame: the ticker, weight and notes columns used
by validate_weights and create_basket_version. -/
structure Holding where
  ticker : String
  weight : ℚ
  notes : String
deriving DecidableEq

/-- One row of the optional per-ticker bounds frame (the minmax argument
of validate_weights); unset bounds are null. -/
structure BoundsRow where
  ticker : String
  min_weight : Option ℚ
  max_weight : Option ℚ
deriving DecidableEq

/-- The error messages validate_weights can append.  Each constructor
stands for one message-building site in the source, carrying the
interpolated data as payload: emptyHoldings for the empty-frame message,
weightSum for the message naming 100 and the offending total,
negativeWeights for the short-selling message, belowMin and aboveMax for
the two aggregate bound messages. -/
inductive WeightError
  | emptyHoldings
  | weightSum (total : ℚ)
  | negativeWeights
  | belowMin
  | aboveMax
deriving DecidableEq

/-- Pandas left merge of one holdings row against the bounds frame keyed
on ticker: one output row per matching bounds row, or a single all-null
row when none matches. -/
def mergeBounds (mm : List BoundsRow) (h : Holding) : List (Holding × Option ℚ × Option ℚ) :=
  if (mm.filter (fun b => b.ticker == h.ticker)).isEmpty then [(h, none, none)]
  else (mm.filter (fun b => b.ticker == h.ticker)).map (fun b => (h, b.min_weight, b.max_weight))

/-- The weight-sum check of validate_weights: one error naming the total
when abs(total - 100) exceeds the tolerance, strictly. -/
def weight_sum_errors (holdings : List Holding) : List WeightError :=
  if WEIGHT_TOLERANCE < |(holdings.map Holding.weight).sum - 100| then
    [WeightError.weightSum ((holdings.map Holding.weight).sum)]
  else []

/-- The sign check of validate_weights: fires only when allow_short is
false and some weight is negative. -/
def negative_errors (holdings : List Holding) (allow_short : Bool) : List WeightError :=
  if !allow_short && holdings.any (fun h => decide (h.weight < 0)) then
    [WeightError.negativeWeights]
  else []

/-- A merged row violates its min bound when the bound is present and
the weight is strictly below it; a null bound never counts. -/
def min_violated (r : Holding × Option ℚ × Option ℚ) : Bool :=
  match r.2.1 with
  | some m => decide (r.1.weight < m)
  | none => false

/-- A merged row violates its max bound when the bound is present and
the weight is strictly above it; a null bound never counts. -/
def max_violated (r : Holding × Option ℚ × Option ℚ) : Bool :=
  match r.2.2 with
  | some m => decide (m < r.1.weight)
  | none => false

/-- The rows of the left-merged frame whose present min_weight bound is
violated (bad_min in the source). -/
def bad_min_rows (holdings : List Holding) (mm : List BoundsRow) :
    List (Holding × Option ℚ × Option ℚ) :=
  ((holdings.map (mergeBounds mm)).flatten).filter min_violated

/-- The rows of the left-merged frame whose present max_weight bound is
violated (bad_max in the source). -/
def bad_max_rows (holdings : List Holding) (mm : List BoundsRow) :
    List (Holding × Option ℚ × Option ℚ) :=
  ((holdings.map (mergeBounds mm)).flatten).filter max_violated

/-- The bound checks of validate_weights: run only when a bounds frame is
supplied and non-empty; one aggregate error per direction. -/
def bound_errors (holdings : List Holding) (minmax : Option (List BoundsRow)) :
    List WeightError :=
  match minmax with
  | none => []
  | some mm =>
    if mm.isEmpty then [] else
    (if !(bad_min_rows holdings mm).isEmpty then [WeightError.belowMin] else []) ++
    (if !(bad_max_rows holdings mm).isEmpty then [WeightError.aboveMax] else [])

/-- validate_weights from src/analytics/validation.py.  Returns the pair
(ok, errors); ok is errors.isEmpty as in the source.  The empty-holdings
check returns immediately; the remaining checks accumulate in source
order. -/
def validate_weights (holdings : List Holding) (allow_short : Bool)
    (minmax : Option (List BoundsRow)) : Bool × List WeightError :=
  if holdings.isEmpty then (false, [WeightError.emptyHoldings]) else
  let errors :=
    weight_sum_errors holdings ++ negative_errors holdings allow_short ++
      bound_errors holdings minmax
  (errors.isEmpty, errors)

/-- A raw uploaded universe dataframe: named columns and rows of nullable
cells.  The schema checks only compare cells for equality and nullness,
so a cell is modelled as an optional string. -/
structure UTable where
  cols : List String
  rows : List (List (Option String))
deriving DecidableEq

/-- Column extraction: the column exists iff its name is in cols, and a
row shorter than the column position reads as null. -/
def getColumn (t : UTable) (c : String) : Option (List (Option String)) :=
  (t.cols.indexOf? c).map (fun i => t.rows.map (fun r => (r.get? i).join))

/-- The error messages validate_universe_schema can append:
missingColumns carries the interpolated list of absent required columns;
the other two are the fixed uniqueness and null-ticker messages. -/
inductive SchemaError
  | missingColumns (missing : List String)
  | duplicateInstrumentId
  | tickerMissing
deriving DecidableEq

/-- The required columns absent from the frame, in declaration order. -/
def missing_universe_cols (t : UTable) : List String :=
  REQUIRED_UNIVERSE_COLUMNS.filter (fun c => !t.cols.contains c)

/-- The combined missing-columns error of validate_universe_schema. -/
def missing_col_errors (t : UTable) : List SchemaError :=
  if (missing_universe_cols t).isEmpty then []
  else [SchemaError.missingColumns (missing_universe_cols t)]

/-- The instrument_id uniqueness check, guarded by column presence as in
the source. -/
def dup_id_errors (t : UTable) : List SchemaError :=
  match getColumn t "instrument_id" with
  | some vals => if hasDup vals then [SchemaError.duplicateInstrumentId] else []
  | none => []

/-- The null-ticker check, guarded by column presence as in the source. -/
def null_ticker_errors (t : UTable) : List SchemaError :=
  match getColumn t "ticker" with
  | some vals => if vals.contains none then [SchemaError.tickerMissing] else []
  | none => []

/-- validate_universe_schema from src/analytics/validation.py: the three
checks accumulate in source order and ok is errors.isEmpty. -/
def validate_universe_schema (t : UTable) : Bool × List SchemaError :=
  let errors := missing_col_errors t ++ dup_id_errors t ++ null_ticker_errors t
  (errors.isEmpty, errors)

/-- Last entry of pct_change(k) over one price column (prices listed
oldest first): defined iff the last row index (length - 1) is at least k,
i.e. k < length; otherwise the pandas cell is NaN, modelled as none. -/
def pct_change_last (k : Nat) (xs : List ℚ) : Option ℚ :=
  if k < xs.length then
    match xs.get? (xs.length - 1), xs.get? (xs.length - 1 - k) with
    | some a, some b => some (a / b - 1)
    | _, _ => none
  else none

/-- NaN-propagating subtraction of two cells: m12 - m1 is NaN whenever
either side is. -/
def osub (a b : Option ℚ) : Option ℚ :=
  match a, b with
  | some x, some y => some (x - y)
  | _, _ => none

/-- Last entry of rolling(w).mean() over one price column: the mean of
the last w prices, NaN (none) when fewer than w rows exist. -/
def rolling_mean_last (w : Nat) (xs : List ℚ) : Option ℚ :=
  if w ≠ 0 ∧ w ≤ xs.length then some ((xs.drop (xs.length - w)).sum / (w : ℚ))
  else none

/-- momentum_signal from src/analytics/signals.py restricted to one
column: the pair (mom_12_1, mom_6m) of last-row cells. -/
def momentum_signal (xs : List ℚ) : Option ℚ × Option ℚ :=
  (osub (pct_change_last 252 xs) (pct_change_last 21 xs), pct_change_last 126 xs)

/-- trend_signal from src/analytics/signals.py restricted to one column.
A NaN comparison is false in pandas, so a missing moving average gives
flag 0. -/
def trend_signal (xs : List ℚ) : ℚ :=
  match rolling_mean_last 50 xs, rolling_mean_last 200 xs with
  | some a, some b => if b < a then 1 else 0
  | _, _ => 0

/-- One output row of composite_signal. -/
structure ScoreRow where
  ticker : String
  mom_12_1 : ℚ
  mom_6m : ℚ
  trend : ℚ
  score : ℚ
deriving DecidableEq

/-- The row composite_signal computes for one price column, after
out.fillna(0): missing momentum cells become 0, then
score = mean(mom_12_1, mom_6m) + 0.05 * trend. -/
def composite_row (c : String × List ℚ) : ScoreRow :=
  let m := momentum_signal c.2
  let m121 := m.1.getD 0
  let m6 := m.2.getD 0
  let tr := trend_signal c.2
  ⟨c.1, m121, m6, tr, (m121 + m6) / 2 + (5 / 100) * tr⟩

/-- composite_signal from src/analytics/signals.py.  A frame with zero
rows (every column an empty series) makes iloc[-1] raise IndexError,
modelled as none; otherwise the per-column rows are sorted by score
descending. -/
def composite_signal (t : List (String × List ℚ)) : Option (List ScoreRow) :=
  if t.any (fun c => c.2.isEmpty) then none
  else some (List.insertionSort (keyGE ScoreRow.score) (t.map composite_row))

/-- One output row of suggest_reweight. -/
structure SuggRow where
  ticker : String
  weight : ℚ
  new_weight : ℚ
  delta : ℚ
  score : ℚ
deriving DecidableEq

/-- Left merge of one holdings row against the score frame (indexed by
ticker): one output row per matching index entry; an unmatched ticker
gets a NaN score which fillna(0) turns into 0. -/
def mergeScores (scores : List (String × ℚ)) (h : Holding) : List (Holding × ℚ) :=
  if (scores.filter (fun s => s.1 == h.ticker)).isEmpty then [(h, 0)]
  else (scores.filter (fun s => s.1 == h.ticker)).map (fun s => (h, s.2))

/-- The full left-merged (holding, score) row list of suggest_reweight. -/
def merged_scores (holdings : List Holding) (scores : List (String × ℚ)) :
    List (Holding × ℚ) :=
  (holdings.map (mergeScores scores)).flatten

/-- The sum of the adjusted-weight column (weight + score * 10) that
suggest_reweight divides by when renormalizing. -/
def adjusted_sum (holdings : List Holding) (scores : List (String × ℚ)) : ℚ :=
  ((merged_scores holdings scores).map (fun r => r.1.weight + r.2 * 10)).sum

/-- One output row of suggest_reweight built from a merged row, given
the adjusted-weight sum S. -/
def sugg_row (S : ℚ) (r : Holding × ℚ) : SuggRow :=
  ⟨r.1.ticker, r.1.weight, (r.1.weight + r.2 * 10) / S * 100,
    (r.1.weight + r.2 * 10) / S * 100 - r.1.weight, r.2⟩

/-- suggest_reweight from src/analytics/signals.py: adjusted weight is
weight + score * 10, new_weight renormalizes by the adjusted sum, delta
is new_weight - weight, and the result is sorted by delta descending.
When the adjusted sum is zero the pandas division yields NaN or
infinity while rational division by zero yields 0; under both semantics
the renormalization-to-100 property fails in that corner. -/
def suggest_reweight (holdings : List Holding) (scores : List (String × ℚ)) : List SuggRow :=
  List.insertionSort (keyGE SuggRow.delta)
    ((merged_scores holdings scores).map (sugg_row (adjusted_sum holdings scores)))

/-- One basket_versions row (created_at is an opaque timestamp string
supplied by the caller of the model). -/
structure VersionRow where
  version_id : Nat
  basket_id : Nat
  version_number : Nat
  created_at : String
  comment : String
deriving DecidableEq

/-- One basket_holdings row. -/
structure HoldingRow where
  version_id : Nat
  ticker : String
  weight : ℚ
  notes : String
deriving DecidableEq

/-- The two tables the claims concern plus the AUTOINCREMENT sequence for
basket_versions.version_id (SQLite allocates max-so-far + 1 and never
reuses ids; the sequence survives DELETE FROM). -/
structure Store where
  versions : List VersionRow
  holdings : List HoldingRow
  next_version_id : Nat
deriving DecidableEq

/-- An input dataframe handed to create_basket_version: its column-name
set plus the ticker, weight and notes cell values of its rows. -/
structure InFrame where
  cols : List String
  rows : List Holding
deriving DecidableEq

/-- SELECT COALESCE(MAX(version_number),0)+1 FROM basket_versions WHERE
basket_id = bid, over natural-number version numbers: foldr max 0 is the
max of the filtered values, 0 when none exist. -/
def next_version_number (s : Store) (bid : Nat) : Nat :=
  ((s.versions.filter (fun v => v.basket_id == bid)).map VersionRow.version_number).foldr max 0 + 1

/-- The column selection holdings[[ticker, weight, notes]] raises
KeyError iff one of the three columns is absent. -/
def frame_has_required_cols (f : InFrame) : Bool :=
  f.cols.contains "ticker" && f.cols.contains "weight" && f.cols.contains "notes"

/-- create_basket_version from src/storage/db.py with sqlite3's deferred
transaction semantics made explicit.  The connection autocommit is off,
so the version INSERT stays pending; the column selection raises before
anything is committed (the open transaction is discarded when the
connection goes away); pandas to_sql inserts the holdings inside
run_transaction, which commits on success and rolls the whole pending
transaction back on an insert failure - here a duplicate of the
(version_id, ticker) primary key, possible only via duplicate tickers
since version_id is fresh.  The final conn.commit() then has nothing
left to do.  Returns the committed store and the new version_id (none
when the call raises). -/
def create_basket_version (s : Store) (bid : Nat) (f : InFrame) (now : String)
    (comment : String) : Store × Option Nat :=
  let vn := next_version_number s bid
  let vid := s.next_version_id
  let pending : Store :=
    { versions := s.versions ++ [⟨vid, bid, vn, now, comment⟩],
      holdings := s.holdings, next_version_id := vid + 1 }
  if !frame_has_required_cols f then (s, none)
  else if hasDup (f.rows.map Holding.ticker) then (s, none)
  else
    let committed : Store :=
      { pending with holdings :=
          pending.holdings ++ f.rows.map (fun h => (⟨vid, h.ticker, h.weight, h.notes⟩ : HoldingRow)) }
    (committed, some vid)

/-- list_versions from src/storage/db.py: WHERE basket_id = bid ORDER BY
version_number DESC. -/
def list_versions (s : Store) (bid : Nat) : List VersionRow :=
  List.insertionSort (keyGE VersionRow.version_number)
    (s.versions.filter (fun v => v.basket_id == bid))

/-- get_holdings from src/storage/db.py: WHERE version_id = vid ORDER BY
weight DESC. -/
def get_holdings (s : Store) (vid : Nat) : List HoldingRow :=
  List.insertionSort (keyGE HoldingRow.weight)
    (s.holdings.filter (fun h => h.version_id == vid))

/-- reset_db from src/storage/db.py: DELETE FROM every table.  DELETE
does not clear sqlite_sequence, so the id sequence is preserved. -/
def reset_db (s : Store) : Store :=
  { versions := [], holdings := [], next_version_id := s.next_version_id }

/-- The public db.py operations that touch the basket_versions or
basket_holdings tables.  Every other public function of the module
(init_db, log_event, create_universe_snapshot, create_basket,
save_constraints and the six readers) reads or writes only other
tables. -/
inductive StoreOp
  | createVersion (bid : Nat) (f : InFrame) (now : String) (comment : String)
  | resetDb
deriving DecidableEq

/-- Effect of one storage operation on the modelled tables. -/
def apply_op (s : Store) : StoreOp → Store
  | StoreOp.createVersion bid f now c => (create_basket_version s bid f now c).1
  | StoreOp.resetDb => reset_db s

/-- Run a sequence of storage operations left to right. -/
def run_ops (s : Store) : List StoreOp → Store
  | [] => s
  | op :: ops => run_ops (apply_op s op) ops

/-- Invariants every store reachable through db.py satisfies: all stored
version_ids are below the sequence counter, and the (version_id, ticker)
primary key of basket_holdings has no duplicates. -/
def store_wf (s : Store) : Bool :=
  s.versions.all (fun v => decide (v.version_id < s.next_version_id)) &&
  s.holdings.all (fun h => decide (h.version_id < s.next_version_id)) &&
  !hasDup (s.holdings.map (fun h => (h.version_id, h.ticker)))

/-- The Download Basket CSV export of one version (app.py): the
get_holdings frame written out with its four columns; re-import feeds it
back to validate_weights and create_basket_version, which read only the
ticker, weight and notes columns. -/
def export_frame (s : Store) (vid : Nat) : InFrame :=
  { cols := ["version_id", "ticker", "weight", "notes"],
    rows := (get_holdings s vid).map (fun h => (⟨h.ticker, h.weight, h.notes⟩ : Holding)) }

/-! ### Helper lemmas -/

theorem hasDup_eq_false_iff {α : Type} [DecidableEq α] (l : List α) :
    hasDup l = false ↔ l.Nodup := by
  induction l with
  | nil => simp [hasDup]
  | cons x xs ih => simp [hasDup, ih, List.nodup_cons]

theorem min_violated_iff (r : Holding × Option ℚ × Option ℚ) :
    min_violated r = true ↔ ∃ m, r.2.1 = some m ∧ r.1.weight < m := by
  rcases r with ⟨x, mn, mx⟩
  rcases mn with _ | m <;> simp [min_violated]

theorem max_violated_iff (r : Holding × Option ℚ × Option ℚ) :
    max_violated r = true ↔ ∃ m, r.2.2 = some m ∧ m < r.1.weight := by
  rcases r with ⟨x, mn, mx⟩
  rcases mx with _ | m <;> simp [max_violated]

theorem exists_mem_mergeBounds (p : Holding × Option ℚ × Option ℚ → Bool)
    (hnull : ∀ x, p (x, none, none) = false) (mm : List BoundsRow) (x : Holding) :
    (∃ r ∈ mergeBounds mm x, p r = true) ↔
      ∃ b ∈ mm, b.ticker = x.ticker ∧ p (x, b.min_weight, b.max_weight) = true := by
  unfold mergeBounds
  split_ifs with hemp
  · rw [List.isEmpty_iff, List.filter_eq_nil_iff] at hemp
    constructor
    · rintro ⟨r, hr, hp⟩
      rw [List.mem_singleton] at hr
      subst hr
      rw [hnull x] at hp
      cases hp
    · rintro ⟨b, hb, htk, -⟩
      have := hemp b hb
      simp only [beq_iff_eq] at this
      exact absurd htk this
  · constructor
    · rintro ⟨r, hr, hp⟩
      rw [List.mem_map] at hr
      obtain ⟨b, hb, rfl⟩ := hr
      rw [List.mem_filter] at hb
      exact ⟨b, hb.1, by simpa using hb.2, hp⟩
    · rintro ⟨b, hb, htk, hp⟩
      exact ⟨(x, b.min_weight, b.max_weight),
        List.mem_map.mpr ⟨b, List.mem_filter.mpr ⟨hb, by simpa using htk⟩, rfl⟩, hp⟩

theorem filter_flatten_ne_nil {α β : Type} (f : α → List β) (p : β → Bool) (l : List α) :
    ((l.map f).flatten).filter p ≠ [] ↔ ∃ x ∈ l, ∃ r ∈ f x, p r = true := by
  rw [Ne, List.filter_eq_nil_iff]
  push_neg
  constructor
  · rintro ⟨r, hr, hp⟩
    rw [List.mem_flatten] at hr
    obtain ⟨lr, hlr, hrin⟩ := hr
    rw [List.mem_map] at hlr
    obtain ⟨x, hx, rfl⟩ := hlr
    exact ⟨x, hx, r, hrin, by simpa using hp⟩
  · rintro ⟨x, hx, r, hr, hp⟩
    exact ⟨r, List.mem_flatten.mpr ⟨f x, List.mem_map.mpr ⟨x, hx, rfl⟩, hr⟩, by simpa using hp⟩

theorem below_mem_iff_raw (holdings : List Holding) (mm : List BoundsRow) :
    WeightError.belowMin ∈ bound_errors holdings (some mm) ↔
      (mm ≠ [] ∧ bad_min_rows holdings mm ≠ []) := by
  simp only [bound_errors]
  split_ifs <;> simp_all [List.isEmpty_iff]

theorem above_mem_iff_raw (holdings : List Holding) (mm : List BoundsRow) :
    WeightError.aboveMax ∈ bound_errors holdings (some mm) ↔
      (mm ≠ [] ∧ bad_max_rows holdings mm ≠ []) := by
  simp only [bound_errors]
  split_ifs <;> simp_all [List.isEmpty_iff]

theorem mem_bound_errors_below (holdings : List Holding) (mm : List BoundsRow) :
    WeightError.belowMin ∈ bound_errors holdings (some mm) ↔
      ∃ x ∈ holdings, ∃ b ∈ mm, b.ticker = x.ticker ∧
        ∃ m, b.min_weight = some m ∧ x.weight < m := by
  rw [below_mem_iff_raw]
  unfold bad_min_rows
  rw [filter_flatten_ne_nil]
  have hrw : ∀ x : Holding, (∃ r ∈ mergeBounds mm x, min_violated r = true) ↔
      ∃ b ∈ mm, b.ticker = x.ticker ∧ ∃ m, b.min_weight = some m ∧ x.weight < m := by
    intro x
    rw [exists_mem_mergeBounds min_violated (fun y => rfl) mm x]
    constructor
    · rintro ⟨b, hb, htk, hviol⟩
      rw [min_violated_iff] at hviol
      exact ⟨b, hb, htk, hviol⟩
    · rintro ⟨b, hb, htk, m, hm, hlt⟩
      exact ⟨b, hb, htk, (min_violated_iff _).mpr ⟨m, hm, hlt⟩⟩
  constructor
  · rintro ⟨-, x, hx, hr⟩
    exact ⟨x, hx, (hrw x).mp hr⟩
  · rintro ⟨x, hx, b, hb, rest⟩
    exact ⟨List.ne_nil_of_mem hb, x, hx, (hrw x).mpr ⟨b, hb, rest⟩⟩

theorem mem_bound_errors_above (holdings : List Holding) (mm : List BoundsRow) :
    WeightError.aboveMax ∈ bound_errors holdings (some mm) ↔
      ∃ x ∈ holdings, ∃ b ∈ mm, b.ticker = x.ticker ∧
        ∃ m, b.max_weight = some m ∧ m < x.weight := by
  rw [above_mem_iff_raw]
  unfold bad_max_rows
  rw [filter_flatten_ne_nil]
  have hrw : ∀ x : Holding, (∃ r ∈ mergeBounds mm x, max_violated r = true) ↔
      ∃ b ∈ mm, b.ticker = x.ticker ∧ ∃ m, b.max_weight = some m ∧ m < x.weight := by
    intro x
    rw [exists_mem_mergeBounds max_violated (fun y => rfl) mm x]
    constructor
    · rintro ⟨b, hb, htk, hviol⟩
      rw [max_violated_iff] at hviol
      exact ⟨b, hb, htk, hviol⟩
    · rintro ⟨b, hb, htk, m, hm, hlt⟩
      exact ⟨b, hb, htk, (max_violated_iff _).mpr ⟨m, hm, hlt⟩⟩
  constructor
  · rintro ⟨-, x, hx, hr⟩
    exact ⟨x, hx, (hrw x).mp hr⟩
  · rintro ⟨x, hx, b, hb, rest⟩
    exact ⟨List.ne_nil_of_mem hb, x, hx, (hrw x).mpr ⟨b, hb, rest⟩⟩

theorem validate_weights_eq (holdings : List Holding) (allow_short : Bool)
    (minmax : Option (List BoundsRow)) (hne : holdings ≠ []) :
    validate_weights holdings allow_short minmax =
      ((weight_sum_errors holdings ++ negative_errors holdings allow_short ++
          bound_errors holdings minmax).isEmpty,
        weight_sum_errors holdings ++ negative_errors holdings allow_short ++
          bound_errors holdings minmax) := by
  unfold validate_weights
  rw [if_neg (fun hc => hne (List.isEmpty_iff.mp hc))]

theorem mem_weight_sum_errors (holdings : List Holding) (tot : ℚ) :
    WeightError.weightSum tot ∈ weight_sum_errors holdings ↔
      (tot = (holdings.map Holding.weight).sum ∧
        WEIGHT_TOLERANCE < |(holdings.map Holding.weight).sum - 100|) := by
  unfold weight_sum_errors
  split_ifs with h <;> simp_all

theorem weight_sum_errors_shape (holdings : List Holding) :
    ∀ e ∈ weight_sum_errors holdings, ∃ t, e = WeightError.weightSum t := by
  unfold weight_sum_errors
  split_ifs <;> simp

theorem mem_negative_errors (holdings : List Holding) (allow_short : Bool) :
    WeightError.negativeWeights ∈ negative_errors holdings allow_short ↔
      (allow_short = false ∧ ∃ x ∈ holdings, x.weight < 0) := by
  unfold negative_errors
  split_ifs with h <;>
    simp_all [Bool.and_eq_true, Bool.not_eq_true', List.any_eq_true]

theorem negative_errors_shape (holdings : List Holding) (allow_short : Bool) :
    ∀ e ∈ negative_errors holdings allow_short, e = WeightError.negativeWeights := by
  unfold negative_errors
  split_ifs <;> simp

theorem bound_errors_shape (holdings : List Holding) (minmax : Option (List BoundsRow)) :
    ∀ e ∈ bound_errors holdings minmax,
      e = WeightError.belowMin ∨ e = WeightError.aboveMax := by
  rcases minmax with _ | mm
  · simp [bound_errors]
  · simp only [bound_errors]
    split_ifs <;> intro e he <;> simp_all

/-! ### Claim theorems: validation -/

/-- C8: on an empty holdings frame validate_weights fails fast, returning
ok false and exactly the single empty-holdings error, whatever the
allow_short flag and the bounds frame. -/
theorem C8_validate_weights_empty (allow_short : Bool) (minmax : Option (List BoundsRow)) :
    validate_weights [] allow_short minmax = (false, [WeightError.emptyHoldings]) := rfl

/-- C4: a non-empty holdings frame whose weights sum to 100 within the
1e-3 tolerance and are all non-negative passes validate_weights with
allow_short false and no bounds frame, with an empty error list; the
weight-sum error appears exactly when the total is off by more than the
tolerance, the negative-weight error exactly when allow_short is false
and some weight is negative, and bound errors arise only from tickers
whose bounds are present in the bounds frame (absent or null bounds are
unconstrained). -/
theorem C4_validate_weights_characterization (holdings : List Holding)
    (allow_short : Bool) (minmax : Option (List BoundsRow)) (hne : holdings ≠ []) :
    ((|(holdings.map Holding.weight).sum - 100| ≤ WEIGHT_TOLERANCE ∧
        ∀ x ∈ holdings, 0 ≤ x.weight) →
      validate_weights holdings false none = (true, [])) ∧
    (∀ tot, WeightError.weightSum tot ∈ (validate_weights holdings allow_short minmax).2 ↔
      (tot = (holdings.map Holding.weight).sum ∧
        WEIGHT_TOLERANCE < |(holdings.map Holding.weight).sum - 100|)) ∧
    (WeightError.negativeWeights ∈ (validate_weights holdings allow_short minmax).2 ↔
      (allow_short = false ∧ ∃ x ∈ holdings, x.weight < 0)) ∧
    (∀ mm, WeightError.belowMin ∈ (validate_weights holdings allow_short (some mm)).2 ↔
      ∃ x ∈ holdings, ∃ b ∈ mm, b.ticker = x.ticker ∧
        ∃ m, b.min_weight = some m ∧ x.weight < m) ∧
    (∀ mm, WeightError.aboveMax ∈ (validate_weights holdings allow_short (some mm)).2 ↔
      ∃ x ∈ holdings, ∃ b ∈ mm, b.ticker = x.ticker ∧
        ∃ m, b.max_weight = some m ∧ m < x.weight) ∧
    (WeightError.belowMin ∉ (validate_weights holdings allow_short none).2 ∧
      WeightError.aboveMax ∉ (validate_weights holdings allow_short none).2) := by
  have hmem : ∀ (a : Bool) (mmx : Option (List BoundsRow)) (e : WeightError),
      e ∈ (validate_weights holdings a mmx).2 ↔
        (e ∈ weight_sum_errors holdings ∨ e ∈ negative_errors holdings a ∨
          e ∈ bound_errors holdings mmx) := by
    intro a mmx e
    rw [validate_weights_eq holdings a mmx hne]
    simp [or_assoc]
  refine ⟨?_, ?_, ?_, ?_, ?_, ?_, ?_⟩
  · rintro ⟨hsum, hpos⟩
    have h1 : weight_sum_errors holdings = [] := by
      unfold weight_sum_errors
      rw [if_neg (not_lt.mpr hsum)]
    have h2 : negative_errors holdings false = [] := by
      unfold negative_errors
      split_ifs with hc
      · simp only [Bool.not_false, Bool.true_and, List.any_eq_true,
          decide_eq_true_eq] at hc
        obtain ⟨x, hx, hlt⟩ := hc
        exact absurd (hpos x hx) (not_le.mpr hlt)
      · rfl
    rw [validate_weights_eq holdings false none hne, h1, h2]
    rfl
  · intro tot
    rw [hmem]
    constructor
    · rintro (h | h | h)
      · exact (mem_weight_sum_errors holdings tot).mp h
      · exact absurd (negative_errors_shape holdings allow_short _ h) (by simp)
      · rcases bound_errors_shape holdings minmax _ h with h' | h' <;>
          exact absurd h' (by simp)
    · intro h
      exact Or.inl ((mem_weight_sum_errors holdings tot).mpr h)
  · rw [hmem]
    constructor
    · rintro (h | h | h)
      · obtain ⟨u, hu⟩ := weight_sum_errors_shape holdings _ h
        exact absurd hu (by simp)
      · exact (mem_negative_errors holdings allow_short).mp h
      · rcases bound_errors_shape holdings minmax _ h with h' | h' <;>
          exact absurd h' (by simp)
    · intro h
      exact Or.inr (Or.inl ((mem_negative_errors holdings allow_short).mpr h))
  · intro mm
    rw [hmem]
    constructor
    · rintro (h | h | h)
      · obtain ⟨u, hu⟩ := weight_sum_errors_shape holdings _ h
        exact absurd hu (by simp)
      · exact absurd (negative_errors_shape holdings allow_short _ h) (by simp)
      · exact (mem_bound_errors_below holdings mm).mp h
    · intro h
      exact Or.inr (Or.inr ((mem_bound_errors_below holdings mm).mpr h))
  · intro mm
    rw [hmem]
    constructor
    · rintro (h | h | h)
      · obtain ⟨u, hu⟩ := weight_sum_errors_shape holdings _ h
        exact absurd hu (by simp)
      · exact absurd (negative_errors_shape holdings allow_short _ h) (by simp)
      · exact (mem_bound_errors_above holdings mm).mp h
    · intro h
      exact Or.inr (Or.inr ((mem_bound_errors_above holdings mm).mpr h))
  · rw [hmem]
    rintro (h | h | h)
    · obtain ⟨u, hu⟩ := weight_sum_errors_shape holdings _ h
      exact absurd hu (by simp)
    · exact absurd (negative_errors_shape holdings allow_short _ h) (by simp)
    · simp [bound_errors] at h
  · rw [hmem]
    rintro (h | h | h)
    · obtain ⟨u, hu⟩ := weight_sum_errors_shape holdings _ h
      exact absurd hu (by simp)
    · exact absurd (negative_errors_shape holdings allow_short _ h) (by simp)
    · simp [bound_errors] at h

/-- Witness for C4: a concrete two-row holdings frame summing to 100
with non-negative weights is accepted by validate_weights. -/
theorem C4_witness :
    ([(⟨"SPY", 60, ""⟩ : Holding), ⟨"AGG", 40, ""⟩] ≠ ([] : List Holding)) ∧
      validate_weights [⟨"SPY", 60, ""⟩, ⟨"AGG", 40, ""⟩] false none = (true, []) :=
  ⟨by simp, (C4_validate_weights_characterization
      [⟨"SPY", 60, ""⟩, ⟨"AGG", 40, ""⟩] false none (by simp)).1
    ⟨by norm_num [WEIGHT_TOLERANCE], by norm_num⟩⟩

theorem validate_universe_schema_eq (t : UTable) :
    validate_universe_schema t =
      ((missing_col_errors t ++ dup_id_errors t ++ null_ticker_errors t).isEmpty,
        missing_col_errors t ++ dup_id_errors t ++ null_ticker_errors t) := rfl

theorem mem_missing_col_errors (t : UTable) (m : List String) :
    SchemaError.missingColumns m ∈ missing_col_errors t ↔
      (m = missing_universe_cols t ∧ missing_universe_cols t ≠ []) := by
  unfold missing_col_errors
  split_ifs with h <;> simp_all [List.isEmpty_iff]

theorem missing_col_errors_shape (t : UTable) :
    ∀ e ∈ missing_col_errors t, ∃ m, e = SchemaError.missingColumns m := by
  unfold missing_col_errors
  split_ifs <;> simp

theorem mem_dup_id_errors (t : UTable) :
    SchemaError.duplicateInstrumentId ∈ dup_id_errors t ↔
      ∃ vals, getColumn t "instrument_id" = some vals ∧ hasDup vals = true := by
  unfold dup_id_errors
  cases hg : getColumn t "instrument_id" with
  | none => simp [hg]
  | some vals =>
    simp only [hg]
    split_ifs with hd <;> simp_all

theorem dup_id_errors_shape (t : UTable) :
    ∀ e ∈ dup_id_errors t, e = SchemaError.duplicateInstrumentId := by
  unfold dup_id_errors
  cases hg : getColumn t "instrument_id" with
  | none => simp [hg]
  | some vals =>
    simp only [hg]
    split_ifs <;> simp

theorem mem_null_ticker_errors (t : UTable) :
    SchemaError.tickerMissing ∈ null_ticker_errors t ↔
      ∃ vals, getColumn t "ticker" = some vals ∧ none ∈ vals := by
  unfold null_ticker_errors
  cases hg : getColumn t "ticker" with
  | none => simp [hg]
  | some vals =>
    simp only [hg]
    split_ifs with hd <;> simp_all

theorem null_ticker_errors_shape (t : UTable) :
    ∀ e ∈ null_ticker_errors t, e = SchemaError.tickerMissing := by
  unfold null_ticker_errors
  cases hg : getColumn t "ticker" with
  | none => simp [hg]
  | some vals =>
    simp only [hg]
    split_ifs <;> simp

/-- C9: validate_universe_schema accumulates all failures: ok is true
exactly when the error list is empty; the combined missing-columns error
lists exactly the required columns absent from the frame; the duplicate
error appears exactly when the instrument_id column is present with
duplicated values; the null-ticker error exactly when the ticker column
is present with a null; and a concrete frame lacking only the region
column is rejected with an error naming region. -/
theorem C9_validate_universe_schema (t : UTable) :
    ((validate_universe_schema t).1 = true ↔ (validate_universe_schema t).2 = []) ∧
    (∀ m, SchemaError.missingColumns m ∈ (validate_universe_schema t).2 ↔
      (m = missing_universe_cols t ∧ missing_universe_cols t ≠ [])) ∧
    (SchemaError.duplicateInstrumentId ∈ (validate_universe_schema t).2 ↔
      ∃ vals, getColumn t "instrument_id" = some vals ∧ hasDup vals = true) ∧
    (SchemaError.tickerMissing ∈ (validate_universe_schema t).2 ↔
      ∃ vals, getColumn t "ticker" = some vals ∧ none ∈ vals) ∧
    ((validate_universe_schema
        ⟨["instrument_id", "ticker", "name", "asset_class", "currency", "eligible"],
          [[some "a", some "SPY", some "SP500", some "Equity", some "USD", some "1"]]⟩).1
        = false ∧
      SchemaError.missingColumns ["region"] ∈ (validate_universe_schema
        ⟨["instrument_id", "ticker", "name", "asset_class", "currency", "eligible"],
          [[some "a", some "SPY", some "SP500", some "Equity", some "USD", some "1"]]⟩).2) := by
  have hmem : ∀ e : SchemaError, e ∈ (validate_universe_schema t).2 ↔
      (e ∈ missing_col_errors t ∨ e ∈ dup_id_errors t ∨ e ∈ null_ticker_errors t) := by
    intro e
    rw [validate_universe_schema_eq]
    simp [or_assoc]
  refine ⟨?_, ?_, ?_, ?_, ?_, ?_⟩
  · simp [validate_universe_schema, List.isEmpty_iff]
  · intro m
    rw [hmem]
    constructor
    · rintro (h | h | h)
      · exact (mem_missing_col_errors t m).mp h
      · exact absurd (dup_id_errors_shape t _ h) (by simp)
      · exact absurd (null_ticker_errors_shape t _ h) (by simp)
    · intro h
      exact Or.inl ((mem_missing_col_errors t m).mpr h)
  · rw [hmem]
    constructor
    · rintro (h | h | h)
      · obtain ⟨m, hm⟩ := missing_col_errors_shape t _ h
        exact absurd hm (by simp)
      · exact (mem_dup_id_errors t).mp h
      · exact absurd (null_ticker_errors_shape t _ h) (by simp)
    · intro h
      exact Or.inr (Or.inl ((mem_dup_id_errors t).mpr h))
  · rw [hmem]
    constructor
    · rintro (h | h | h)
      · obtain ⟨m, hm⟩ := missing_col_errors_shape t _ h
        exact absurd hm (by simp)
      · exact absurd (dup_id_errors_shape t _ h) (by simp)
      · exact (mem_null_ticker_errors t).mp h
    · intro h
      exact Or.inr (Or.inr ((mem_null_ticker_errors t).mpr h))
  · decide
  · decide

theorem osub_none_left (b : Option ℚ) : osub none b = none := by
  cases b <;> rfl

theorem pct_change_last_of_short (k : Nat) (xs : List ℚ) (h : ¬k < xs.length) :
    pct_change_last k xs = none := by
  unfold pct_change_last
  rw [if_neg h]

/-! ### Claim theorems: signals -/

/-- C5 (amended): suggest_reweight left-joins holdings to scores by
ticker giving unmatched tickers score 0, sets delta to
new_weight - weight, returns rows sorted by delta descending, and -
provided the adjusted-weight sum is nonzero - renormalizes so that the
new_weight column sums to 100; a single ticker with weight 100 and
score 0 yields new_weight 100 and delta 0. -/
theorem C5_suggest_reweight (holdings : List Holding) (scores : List (String × ℚ)) :
    (adjusted_sum holdings scores ≠ 0 →
      ((suggest_reweight holdings scores).map SuggRow.new_weight).sum = 100) ∧
    (∀ r ∈ suggest_reweight holdings scores, r.delta = r.new_weight - r.weight) ∧
    (∀ r ∈ suggest_reweight holdings scores,
      (∀ sc ∈ scores, sc.1 ≠ r.ticker) → r.score = 0) ∧
    List.Sorted (keyGE SuggRow.delta) (suggest_reweight holdings scores) ∧
    suggest_reweight [⟨"SPY", 100, ""⟩] [("SPY", 0)] =
      [(⟨"SPY", 100, 100, 0, 0⟩ : SuggRow)] := by
  have hperm : List.Perm (suggest_reweight holdings scores)
      ((merged_scores holdings scores).map (sugg_row (adjusted_sum holdings scores))) :=
    List.perm_insertionSort _ _
  refine ⟨?_, ?_, ?_, ?_, ?_⟩
  · intro hS
    rw [(hperm.map SuggRow.new_weight).sum_eq, List.map_map]
    have hfun : (SuggRow.new_weight ∘ sugg_row (adjusted_sum holdings scores)) =
        fun r : Holding × ℚ =>
          (r.1.weight + r.2 * 10) * (100 / adjusted_sum holdings scores) := by
      funext r
      show (r.1.weight + r.2 * 10) / adjusted_sum holdings scores * 100 = _
      ring
    rw [hfun, List.sum_map_mul_right]
    show adjusted_sum holdings scores * (100 / adjusted_sum holdings scores) = 100
    rw [mul_comm, div_mul_cancel₀ _ hS]
  · intro r hr
    rw [hperm.mem_iff, List.mem_map] at hr
    obtain ⟨x, hx, rfl⟩ := hr
    rfl
  · intro r hr hnone
    rw [hperm.mem_iff, List.mem_map] at hr
    obtain ⟨x, hx, rfl⟩ := hr
    unfold merged_scores at hx
    rw [List.mem_flatten] at hx
    obtain ⟨lx, hlx, hxin⟩ := hx
    rw [List.mem_map] at hlx
    obtain ⟨h0, hh0, rfl⟩ := hlx
    unfold mergeScores at hxin
    split_ifs at hxin with hemp
    · rw [List.mem_singleton] at hxin
      subst hxin
      rfl
    · rw [List.mem_map] at hxin
      obtain ⟨s, hs, rfl⟩ := hxin
      rw [List.mem_filter] at hs
      have h1 : s.1 = h0.ticker := by simpa using hs.2
      exact absurd h1 (hnone s hs.1)
  · exact List.sorted_insertionSort _ _
  · norm_num [suggest_reweight, merged_scores, mergeScores, adjusted_sum, sugg_row,
      List.insertionSort, List.orderedInsert]

/-- Witness for C5: at the single-ticker neutral-score input the
adjusted sum is 100, nonzero, and the theorem's renormalization
conclusion evaluates as claimed. -/
theorem C5_witness :
    adjusted_sum [(⟨"SPY", 100, ""⟩ : Holding)] [("SPY", 0)] ≠ 0 ∧
      ((suggest_reweight [(⟨"SPY", 100, ""⟩ : Holding)] [("SPY", 0)]).map
          SuggRow.new_weight).sum = 100 :=
  ⟨by norm_num [adjusted_sum, merged_scores, mergeScores],
    (C5_suggest_reweight [⟨"SPY", 100, ""⟩] [("SPY", 0)]).1
      (by norm_num [adjusted_sum, merged_scores, mergeScores])⟩

/-- Counterexample to C5 as stated: with the single holding A of weight
10 and score -1 the adjusted weights sum to zero and the new_weight
column does not sum to 100, so the unconditional renormalization claim
fails (pandas produces NaN in this corner; exact rational division by
zero produces 0 - the column sums to 100 under neither semantics). -/
theorem C5_counterexample :
    ((suggest_reweight [(⟨"A", 10, ""⟩ : Holding)] [("A", -1)]).map
        SuggRow.new_weight).sum ≠ 100 := by
  norm_num [suggest_reweight, merged_scores, mergeScores, adjusted_sum, sugg_row,
    List.insertionSort, List.orderedInsert]

/-- C6: on a price table whose columns all have at least one and fewer
than 252 rows, composite_signal succeeds; every output row's 12-month
momentum component is 0 (missing values are filled with 0, as is the
trend flag of a too-short series), every row's score is the mean of its
two momentum components plus 0.05 times its trend flag, and the output
is sorted by score descending. -/
theorem C6_composite_signal_short_history (t : List (String × List ℚ))
    (hne : ∀ c ∈ t, c.2 ≠ []) (hshort : ∀ c ∈ t, c.2.length < 252) :
    ∃ rows, composite_signal t = some rows ∧
      (∀ r ∈ rows, r.mom_12_1 = 0) ∧
      (∀ r ∈ rows, r.score = (r.mom_12_1 + r.mom_6m) / 2 + (5 / 100) * r.trend) ∧
      (∀ r ∈ rows, ∃ c ∈ t, r.ticker = c.1 ∧
        r.mom_6m = (pct_change_last 126 c.2).getD 0 ∧ r.trend = trend_signal c.2) ∧
      List.Sorted (keyGE ScoreRow.score) rows := by
  have hcond : (t.any (fun c => c.2.isEmpty)) = false := by
    rw [List.any_eq_false]
    intro c hc
    simpa [List.isEmpty_iff] using hne c hc
  have hval : composite_signal t =
      some (List.insertionSort (keyGE ScoreRow.score) (t.map composite_row)) := by
    unfold composite_signal
    rw [if_neg (by simp [hcond])]
  refine ⟨_, hval, ?_, ?_, ?_, List.sorted_insertionSort _ _⟩
  all_goals
    intro r hr
  all_goals
    rw [(List.perm_insertionSort (keyGE ScoreRow.score) (t.map composite_row)).mem_iff,
      List.mem_map] at hr
  all_goals
    obtain ⟨c, hc, rfl⟩ := hr
  · show ((momentum_signal c.2).1.getD 0) = 0
    unfold momentum_signal
    rw [pct_change_last_of_short 252 c.2 (by have := hshort c hc; omega), osub_none_left]
    rfl
  · rfl
  · exact ⟨c, hc, rfl, rfl, rfl⟩

/-- Witness for C6: a three-row one-column price table satisfies both
hypotheses and composite_signal evaluates on it. -/
theorem C6_witness :
    (∀ c ∈ [("SPY", [(1 : ℚ), 2, 3])], c.2 ≠ []) ∧
      (∀ c ∈ [("SPY", [(1 : ℚ), 2, 3])], c.2.length < 252) ∧
      ∃ rows, composite_signal [("SPY", [(1 : ℚ), 2, 3])] = some rows ∧
        (∀ r ∈ rows, r.mom_12_1 = 0) ∧
        (∀ r ∈ rows, r.score = (r.mom_12_1 + r.mom_6m) / 2 + (5 / 100) * r.trend) ∧
        (∀ r ∈ rows, ∃ c ∈ [("SPY", [(1 : ℚ), 2, 3])], r.ticker = c.1 ∧
          r.mom_6m = (pct_change_last 126 c.2).getD 0 ∧ r.trend = trend_signal c.2) ∧
        List.Sorted (keyGE ScoreRow.score) rows :=
  ⟨by simp, by simp,
    C6_composite_signal_short_history [("SPY", [(1 : ℚ), 2, 3])] (by simp) (by simp)⟩

/-- C10: composite_signal fails (models the IndexError that iloc[-1]
raises) exactly when some column of the price frame has no rows, so
non-emptiness of the price history is an undocumented precondition of
the public interface; in particular the one-column zero-row table
fails. -/
theorem C10_composite_signal_empty_raises (t : List (String × List ℚ)) :
    (composite_signal t = none ↔ ∃ c ∈ t, c.2 = []) ∧
      composite_signal [("SPY", ([] : List ℚ))] = none := by
  constructor
  · unfold composite_signal
    split_ifs with h <;> simp_all [List.any_eq_true, List.isEmpty_iff]
  · rfl

theorem create_basket_version_success (s : Store) (bid : Nat) (f : InFrame)
    (now c : String) (hcols : frame_has_required_cols f = true)
    (hdup : hasDup (f.rows.map Holding.ticker) = false) :
    create_basket_version s bid f now c =
      (({ versions := s.versions ++
            [⟨s.next_version_id, bid, next_version_number s bid, now, c⟩],
          holdings := s.holdings ++ f.rows.map
            (fun h => (⟨s.next_version_id, h.ticker, h.weight, h.notes⟩ : HoldingRow)),
          next_version_id := s.next_version_id + 1 } : Store),
        some s.next_version_id) := by
  unfold create_basket_version
  rw [hcols, hdup]
  rfl

theorem create_basket_version_fails (s : Store) (bid : Nat) (f : InFrame)
    (now c : String)
    (h : frame_has_required_cols f = false ∨ hasDup (f.rows.map Holding.ticker) = true) :
    create_basket_version s bid f now c = (s, none) := by
  unfold create_basket_version
  split_ifs with h1 h2
  · rfl
  · rfl
  · rcases h with h | h <;> simp_all

theorem create_step_props (s : Store) (bid : Nat) (f : InFrame) (now c : String) :
    ∃ tv th,
      ((create_basket_version s bid f now c).1).versions = s.versions ++ tv ∧
      ((create_basket_version s bid f now c).1).holdings = s.holdings ++ th ∧
      (∀ r ∈ th, r.version_id = s.next_version_id) ∧
      s.next_version_id ≤ ((create_basket_version s bid f now c).1).next_version_id := by
  cases hc : frame_has_required_cols f
  · rw [create_basket_version_fails s bid f now c (Or.inl hc)]
    exact ⟨[], [], by simp, by simp, by simp, le_refl _⟩
  · cases hd : hasDup (f.rows.map Holding.ticker)
    · rw [create_basket_version_success s bid f now c hc hd]
      refine ⟨_, _, rfl, rfl, ?_, Nat.le_succ _⟩
      intro r hr
      rw [List.mem_map] at hr
      obtain ⟨x, hx, rfl⟩ := hr
      rfl
    · rw [create_basket_version_fails s bid f now c (Or.inr hd)]
      exact ⟨[], [], by simp, by simp, by simp, le_refl _⟩

theorem get_holdings_create_frozen (s : Store) (bid : Nat) (f : InFrame) (now c : String)
    (vid : Nat) (hv : vid < s.next_version_id) :
    get_holdings ((create_basket_version s bid f now c).1) vid = get_holdings s vid := by
  obtain ⟨tv, th, hver, hhold, hth, hmono⟩ := create_step_props s bid f now c
  unfold get_holdings
  rw [hhold, List.filter_append]
  have hnil : th.filter (fun h => h.version_id == vid) = [] := by
    rw [List.filter_eq_nil_iff]
    intro r hr
    rw [hth r hr]
    simp only [beq_iff_eq]
    omega
  rw [hnil, List.append_nil]

/-! ### Claim theorems: versioning store -/

/-- C2: create_basket_version is atomic under the deferred-transaction
semantics of the connection: for every input either the committed store
is unchanged (a raising call rolls the open transaction back before
anything is committed) or it contains both the new version row and all
of its holdings rows, keyed by the new version_id. -/
theorem C2_create_basket_version_atomic (s : Store) (bid : Nat) (f : InFrame)
    (now c : String) :
    (create_basket_version s bid f now c).1 = s ∨
      ∃ vid, (create_basket_version s bid f now c).2 = some vid ∧
        ((create_basket_version s bid f now c).1).versions =
          s.versions ++ [⟨vid, bid, next_version_number s bid, now, c⟩] ∧
        ((create_basket_version s bid f now c).1).holdings =
          s.holdings ++ f.rows.map
            (fun h => (⟨vid, h.ticker, h.weight, h.notes⟩ : HoldingRow)) := by
  cases hc : frame_has_required_cols f
  · left
    rw [create_basket_version_fails s bid f now c (Or.inl hc)]
  · cases hd : hasDup (f.rows.map Holding.ticker)
    · right
      rw [create_basket_version_success s bid f now c hc hd]
      exact ⟨s.next_version_id, rfl, rfl, rfl⟩
    · left
      rw [create_basket_version_fails s bid f now c (Or.inr hd)]

/-- C1: create_basket_version assigns version_number 1 plus the maximum
existing version_number of the basket (1 when none exists), and two
sequential calls on a basket with no versions produce version numbers 1
then 2, with list_versions reporting them newest-first as [2, 1]. -/
theorem C1_create_basket_version_numbers :
    (∀ (s : Store) (bid : Nat) (f : InFrame) (now c : String),
      frame_has_required_cols f = true →
      hasDup (f.rows.map Holding.ticker) = false →
      ∃ v : VersionRow,
        ((create_basket_version s bid f now c).1).versions = s.versions ++ [v] ∧
        v.basket_id = bid ∧
        v.version_number =
          ((s.versions.filter (fun w => w.basket_id == bid)).map
            VersionRow.version_number).foldr max 0 + 1) ∧
    (∀ (s : Store) (bid : Nat) (f1 f2 : InFrame) (n1 n2 c1 c2 : String),
      frame_has_required_cols f1 = true →
      hasDup (f1.rows.map Holding.ticker) = false →
      frame_has_required_cols f2 = true →
      hasDup (f2.rows.map Holding.ticker) = false →
      s.versions.filter (fun w => w.basket_id == bid) = [] →
      (list_versions ((create_basket_version
          ((create_basket_version s bid f1 n1 c1).1) bid f2 n2 c2).1) bid).map
        VersionRow.version_number = [2, 1]) := by
  constructor
  · intro s bid f now c hcols hdup
    rw [create_basket_version_success s bid f now c hcols hdup]
    exact ⟨⟨s.next_version_id, bid, next_version_number s bid, now, c⟩, rfl, rfl, rfl⟩
  · intro s bid f1 f2 n1 n2 c1 c2 hc1 hd1 hc2 hd2 hemp
    have hnvn1 : next_version_number s bid = 1 := by
      unfold next_version_number
      rw [hemp]
      rfl
    rw [create_basket_version_success s bid f1 n1 c1 hc1 hd1, hnvn1]
    rw [create_basket_version_success _ bid f2 n2 c2 hc2 hd2]
    unfold list_versions next_version_number
    simp [List.filter_append, hemp, List.insertionSort, List.orderedInsert, keyGE]

/-- Witness for C1: from the empty store, two sequential creates for
basket 1 with well-formed single-row frames leave list_versions
reporting version numbers [2, 1]. -/
theorem C1_witness :
    (list_versions ((create_basket_version
        ((create_basket_version (⟨[], [], 1⟩ : Store) 1
            (⟨["ticker", "weight", "notes"], [⟨"SPY", 100, ""⟩]⟩ : InFrame) "t1" "c1").1) 1
        (⟨["ticker", "weight", "notes"], [⟨"SPY", 100, ""⟩]⟩ : InFrame) "t2" "c2").1) 1).map
      VersionRow.version_number = [2, 1] :=
  C1_create_basket_version_numbers.2 ⟨[], [], 1⟩ 1
    ⟨["ticker", "weight", "notes"], [⟨"SPY", 100, ""⟩]⟩
    ⟨["ticker", "weight", "notes"], [⟨"SPY", 100, ""⟩]⟩ "t1" "t2" "c1" "c2"
    (by decide) (by decide) (by decide) (by decide) (by decide)

/-- Counterexample to C3 as stated: the storage layer also exposes
reset_db, which deletes every basket_versions and basket_holdings row;
after creating a version for basket 1, a reset makes the later
list_versions read return nothing although the pre-reset read returned
the version. -/
theorem C3_counterexample :
    (list_versions ((create_basket_version (⟨[], [], 1⟩ : Store) 1
        (⟨["ticker", "weight", "notes"], [⟨"SPY", 100, ""⟩]⟩ : InFrame) "t" "c").1) 1 ≠ []) ∧
      list_versions (apply_op ((create_basket_version (⟨[], [], 1⟩ : Store) 1
        (⟨["ticker", "weight", "notes"], [⟨"SPY", 100, ""⟩]⟩ : InFrame) "t" "c").1)
        StoreOp.resetDb) 1 = [] := by
  constructor
  · decide
  · decide

/-- C3 (amended): apart from reset_db, no storage operation updates or
deletes an existing basket_versions or basket_holdings row: any
reset-free sequence of operations only appends to both tables, and
get_holdings for a version_id already allocated before the sequence
returns exactly what it returned before. -/
theorem C3_versions_immutable_without_reset (s : Store) (ops : List StoreOp)
    (hnr : ∀ op ∈ ops, op ≠ StoreOp.resetDb) :
    (∃ tailv, (run_ops s ops).versions = s.versions ++ tailv) ∧
    (∃ tailh, (run_ops s ops).holdings = s.holdings ++ tailh) ∧
    (∀ vid < s.next_version_id,
      get_holdings (run_ops s ops) vid = get_holdings s vid) := by
  induction ops generalizing s with
  | nil =>
    exact ⟨⟨[], by simp [run_ops]⟩, ⟨[], by simp [run_ops]⟩,
      fun vid _ => by simp [run_ops]⟩
  | cons op rest ih =>
    have hop : op ≠ StoreOp.resetDb := hnr op (List.mem_cons_self op rest)
    have hrest : ∀ o ∈ rest, o ≠ StoreOp.resetDb :=
      fun o ho => hnr o (List.mem_cons_of_mem op ho)
    rcases op with ⟨bid, f, now, c⟩ | _
    · obtain ⟨tv1, th1, hver1, hhold1, hth1, hmono1⟩ := create_step_props s bid f now c
      obtain ⟨⟨tv2, hver2⟩, ⟨th2, hhold2⟩, hget2⟩ :=
        ih ((create_basket_version s bid f now c).1) hrest
      refine ⟨⟨tv1 ++ tv2, ?_⟩, ⟨th1 ++ th2, ?_⟩, ?_⟩
      · show (run_ops (apply_op s (StoreOp.createVersion bid f now c)) rest).versions = _
        rw [show apply_op s (StoreOp.createVersion bid f now c) =
            (create_basket_version s bid f now c).1 from rfl]
        rw [hver2, hver1, List.append_assoc]
      · show (run_ops (apply_op s (StoreOp.createVersion bid f now c)) rest).holdings = _
        rw [show apply_op s (StoreOp.createVersion bid f now c) =
            (create_basket_version s bid f now c).1 from rfl]
        rw [hhold2, hhold1, List.append_assoc]
      · intro vid hvid
        show get_holdings (run_ops (apply_op s (StoreOp.createVersion bid f now c)) rest) vid = _
        rw [show apply_op s (StoreOp.createVersion bid f now c) =
            (create_basket_version s bid f now c).1 from rfl]
        rw [hget2 vid (lt_of_lt_of_le hvid hmono1)]
        exact get_holdings_create_frozen s bid f now c vid hvid
    · exact absurd rfl hop

/-- Witness for C3 amended: a reset-free one-operation sequence on a
concrete one-version store only appends, and get_holdings for the
existing version 1 is unchanged. -/
theorem C3_witness :
    (∃ tailv, (run_ops (⟨[⟨1, 1, 1, "t", "c"⟩], [⟨1, "SPY", 100, ""⟩], 2⟩ : Store)
        [StoreOp.createVersion 1
          (⟨["ticker", "weight", "notes"], [⟨"AGG", 100, ""⟩]⟩ : InFrame) "t2" "c2"]).versions =
      [⟨1, 1, 1, "t", "c"⟩] ++ tailv) ∧
    (∃ tailh, (run_ops (⟨[⟨1, 1, 1, "t", "c"⟩], [⟨1, "SPY", 100, ""⟩], 2⟩ : Store)
        [StoreOp.createVersion 1
          (⟨["ticker", "weight", "notes"], [⟨"AGG", 100, ""⟩]⟩ : InFrame) "t2" "c2"]).holdings =
      [⟨1, "SPY", 100, ""⟩] ++ tailh) ∧
    (∀ vid < 2,
      get_holdings (run_ops (⟨[⟨1, 1, 1, "t", "c"⟩], [⟨1, "SPY", 100, ""⟩], 2⟩ : Store)
        [StoreOp.createVersion 1
          (⟨["ticker", "weight", "notes"], [⟨"AGG", 100, ""⟩]⟩ : InFrame) "t2" "c2"]) vid =
      get_holdings (⟨[⟨1, 1, 1, "t", "c"⟩], [⟨1, "SPY", 100, ""⟩], 2⟩ : Store) vid) :=
  C3_versions_immutable_without_reset
    (⟨[⟨1, 1, 1, "t", "c"⟩], [⟨1, "SPY", 100, ""⟩], 2⟩ : Store)
    [StoreOp.createVersion 1
      (⟨["ticker", "weight", "notes"], [⟨"AGG", 100, ""⟩]⟩ : InFrame) "t2" "c2"]
    (by simp)

theorem store_wf_spec (s : Store) (h : store_wf s = true) :
    (∀ v ∈ s.versions, v.version_id < s.next_version_id) ∧
    (∀ r ∈ s.holdings, r.version_id < s.next_version_id) ∧
    (s.holdings.map (fun r => (r.version_id, r.ticker))).Nodup := by
  rw [store_wf, Bool.and_eq_true, Bool.and_eq_true] at h
  obtain ⟨⟨h1, h2⟩, h3⟩ := h
  refine ⟨?_, ?_, ?_⟩
  · intro v hv
    simpa using List.all_eq_true.mp h1 v hv
  · intro r hr
    simpa using List.all_eq_true.mp h2 r hr
  · rw [Bool.not_eq_true'] at h3
    exact (hasDup_eq_false_iff _).mp h3

theorem get_holdings_tickers_nodup (s : Store) (vid : Nat) (hwf : store_wf s = true) :
    hasDup ((get_holdings s vid).map HoldingRow.ticker) = false := by
  obtain ⟨-, -, hnodup⟩ := store_wf_spec s hwf
  rw [hasDup_eq_false_iff]
  have hperm : List.Perm (get_holdings s vid)
      (s.holdings.filter (fun h => h.version_id == vid)) :=
    List.perm_insertionSort _ _
  rw [(hperm.map HoldingRow.ticker).nodup_iff]
  have hsub : ((s.holdings.filter (fun h => h.version_id == vid)).map
      (fun r => (r.version_id, r.ticker))).Sublist
        (s.holdings.map (fun r => (r.version_id, r.ticker))) :=
    (List.filter_sublist s.holdings).map _
  have hnd : ((s.holdings.filter (fun h => h.version_id == vid)).map
      (fun r => (r.version_id, r.ticker))).Nodup := hnodup.sublist hsub
  have hmapeq : (s.holdings.filter (fun h => h.version_id == vid)).map
      (fun r => (r.version_id, r.ticker)) =
      ((s.holdings.filter (fun h => h.version_id == vid)).map
        HoldingRow.ticker).map (fun tk => (vid, tk)) := by
    rw [List.map_map]
    apply List.map_congr_left
    intro r hr
    have hr2 := (List.mem_filter.mp hr).2
    have : r.version_id = vid := by simpa using hr2
    simp [this, Function.comp]
  rw [hmapeq] at hnd
  exact hnd.of_map _

theorem get_holdings_new_version (s : Store) (bid : Nat) (f : InFrame) (now c : String)
    (hcols : frame_has_required_cols f = true)
    (hdup : hasDup (f.rows.map Holding.ticker) = false)
    (hbound : ∀ r ∈ s.holdings, r.version_id < s.next_version_id) :
    get_holdings ((create_basket_version s bid f now c).1) s.next_version_id =
      List.insertionSort (keyGE HoldingRow.weight)
        (f.rows.map (fun h =>
          (⟨s.next_version_id, h.ticker, h.weight, h.notes⟩ : HoldingRow))) := by
  rw [create_basket_version_success s bid f now c hcols hdup]
  unfold get_holdings
  dsimp only
  rw [List.filter_append]
  have h1 : s.holdings.filter (fun h => h.version_id == s.next_version_id) = [] := by
    rw [List.filter_eq_nil_iff]
    intro r hr
    have := hbound r hr
    simp only [beq_iff_eq]
    omega
  have h2 : (f.rows.map (fun h =>
      (⟨s.next_version_id, h.ticker, h.weight, h.notes⟩ : HoldingRow))).filter
        (fun h => h.version_id == s.next_version_id) =
      f.rows.map (fun h =>
        (⟨s.next_version_id, h.ticker, h.weight, h.notes⟩ : HoldingRow)) := by
    rw [List.filter_eq_self]
    intro r hr
    rw [List.mem_map] at hr
    obtain ⟨x, hx, rfl⟩ := hr
    simp
  rw [h1, h2, List.nil_append]

theorem export_rows_sorted (s : Store) (vid nvid : Nat) :
    List.Sorted (keyGE HoldingRow.weight)
      (((export_frame s vid).rows).map (fun h =>
        (⟨nvid, h.ticker, h.weight, h.notes⟩ : HoldingRow))) := by
  have hs : List.Sorted (keyGE HoldingRow.weight) (get_holdings s vid) :=
    List.sorted_insertionSort _ _
  unfold export_frame
  dsimp only
  rw [List.map_map]
  exact hs.map _ (fun a b hab => hab)

/-- C7: exporting a stored version through the Download Basket CSV
format (the get_holdings frame) and re-importing it through
validate_weights and create_basket_version reproduces, on the
get_holdings readback of the new version, exactly the original
(ticker, weight) pairs. -/
theorem C7_export_reimport_roundtrip (s : Store) (vid bid : Nat) (now c : String)
    (hwf : store_wf s = true)
    (_hok : (validate_weights (export_frame s vid).rows false none).1 = true) :
    ∃ newVid, (create_basket_version s bid (export_frame s vid) now c).2 = some newVid ∧
      ((get_holdings ((create_basket_version s bid (export_frame s vid) now c).1)
          newVid).map (fun h => (h.ticker, h.weight))) =
        ((get_holdings s vid).map (fun h => (h.ticker, h.weight))) := by
  obtain ⟨hv, hb, hnodup⟩ := store_wf_spec s hwf
  have hcols : frame_has_required_cols (export_frame s vid) = true := rfl
  have hdupt : hasDup ((export_frame s vid).rows.map Holding.ticker) = false := by
    have h1 := get_holdings_tickers_nodup s vid hwf
    have h2 : (export_frame s vid).rows.map Holding.ticker =
        (get_holdings s vid).map HoldingRow.ticker := by
      unfold export_frame
      dsimp only
      rw [List.map_map]
      rfl
    rw [h2]
    exact h1
  refine ⟨s.next_version_id, ?_, ?_⟩
  · rw [create_basket_version_success s bid _ now c hcols hdupt]
  · rw [get_holdings_new_version s bid _ now c hcols hdupt hb]
    rw [(export_rows_sorted s vid s.next_version_id).insertionSort_eq]
    unfold export_frame
    dsimp only
    rw [List.map_map, List.map_map]
    rfl

/-- Witness for C7: a concrete store with one stored version whose
export passes validate_weights; re-import creates version_id 2 whose
readback carries the same (ticker, weight) pairs. -/
theorem C7_witness :
    store_wf (⟨[⟨1, 1, 1, "t", "c"⟩], [⟨1, "SPY", 100, ""⟩], 2⟩ : Store) = true ∧
    (validate_weights (export_frame
        (⟨[⟨1, 1, 1, "t", "c"⟩], [⟨1, "SPY", 100, ""⟩], 2⟩ : Store) 1).rows
      false none).1 = true ∧
    ∃ newVid, (create_basket_version
        (⟨[⟨1, 1, 1, "t", "c"⟩], [⟨1, "SPY", 100, ""⟩], 2⟩ : Store) 1
        (export_frame (⟨[⟨1, 1, 1, "t", "c"⟩], [⟨1, "SPY", 100, ""⟩], 2⟩ : Store) 1)
        "t2" "c2").2 = some newVid ∧
      ((get_holdings ((create_basket_version
          (⟨[⟨1, 1, 1, "t", "c"⟩], [⟨1, "SPY", 100, ""⟩], 2⟩ : Store) 1
          (export_frame (⟨[⟨1, 1, 1, "t", "c"⟩], [⟨1, "SPY", 100, ""⟩], 2⟩ : Store) 1)
          "t2" "c2").1) newVid).map (fun h => (h.ticker, h.weight))) =
        ((get_holdings (⟨[⟨1, 1, 1, "t", "c"⟩], [⟨1, "SPY", 100, ""⟩], 2⟩ : Store) 1).map
          (fun h => (h.ticker, h.weight))) :=
  ⟨by decide,
    by norm_num [validate_weights, export_frame, get_holdings, List.insertionSort,
      List.orderedInsert, weight_sum_errors, negative_errors, bound_errors,
      WEIGHT_TOLERANCE],
    C7_export_reimport_roundtrip
      (⟨[⟨1, 1, 1, "t", "c"⟩], [⟨1, "SPY", 100, ""⟩], 2⟩ : Store) 1 1 "t2" "c2"
      (by decide)
      (by norm_num [validate_weights, export_frame, get_holdings, List.insertionSort,
        List.orderedInsert, weight_sum_errors, negative_errors, bound_errors,
        WEIGHT_TOLERANCE])⟩
